import Mathlib

/-
Verification of the mcp-safe-run core: the placeholder resolver
(src/placeholder-resolver.ts, current revision with an injectable keyring
getter), the environment composer and the process supervisor entry point
(src/index.ts, current revision).

JS strings are modelled as Lean `String` values and JS string operations
(`startsWith`, `substring`, `split`, `trim`, the one regex replace) are
translated to transparent functions over the underlying character list.
`Record<string, string>` objects are modelled as association lists with
JS object-assignment semantics.  Fallible async functions become
`Except`-valued functions; the external capabilities (process.env, the
file system, the keytar getter) are a `Caps` record of pure functions,
and each run of the resolver also returns the list of (service, account)
pairs the credential capability was invoked with, so that call counts
are part of the model.
-/

namespace McpSafeRun

/-- Character-list prefix test: `chPref p l` decides whether `p` is an initial
segment of `l`. -/
def chPref : List Char → List Char → Bool
  | [], _ => true
  | a :: as, l =>
    match l with
    | [] => false
    | b :: bs => a == b && chPref as bs

/-- JS `s.startsWith(p)`, as a character-list prefix test. -/
def strStartsWith (s p : String) : Bool :=
  chPref p.data s.data

/-- JS `s.substring(n)` (for `n` within bounds): drop the first `n` characters. -/
def strDrop (s : String) (n : Nat) : String :=
  String.mk (s.data.drop n)

/-- JS `s.split(c)` for a single-character separator, on character lists.
`splitCharList c l` never returns `[]`; splitting the empty list gives `[[]]`,
matching `"".split(":") == [""]` in JS. -/
def splitCharList (c : Char) : List Char → List (List Char)
  | [] => [[]]
  | x :: xs =>
    match splitCharList c xs with
    | [] => [[x]]
    | h :: t => if x = c then [] :: h :: t else (x :: h) :: t

/-- JS `s.split(c)` for a single-character separator. -/
def strSplit (s : String) (c : Char) : List String :=
  (splitCharList c s.data).map String.mk

/-- JS `s.trim()`: drop leading and trailing whitespace, keep the middle
untouched.  (JS also strips some exotic Unicode whitespace; over the ASCII
range the two whitespace classes agree.) -/
def jsTrim (s : String) : String :=
  String.mk (((s.data.dropWhile Char.isWhitespace).reverse.dropWhile Char.isWhitespace).reverse)

/-- The `untildify` dependency: expand a leading `~` (alone or followed by a
path separator) to the home directory; any other path is returned unchanged. -/
def untildify (home p : String) : String :=
  if p = "~" ∨ strStartsWith p "~/" then home ++ strDrop p 1 else p

/-- Result of the file-read capability (`fs.readFile`): the decoded content,
an ENOENT failure, or any other I/O error carrying its message. -/
inductive FileOutcome where
  | content (s : String)
  | enoent
  | ioError (msg : String)
deriving DecidableEq, Repr

/-- Result of one credential-capability call (the keytar getter): the secret,
`null` (secret absent), or a thrown error carrying its message.  An
unavailable keytar module is the `failure` case whose message is the
module-load error. -/
inductive KeyringOutcome where
  | found (secret : String)
  | absent
  | failure (msg : String)
deriving DecidableEq, Repr

/-- The external capabilities the resolver reads from: the supervisor's own
inherited environment, the home directory, the file system, and the
credential store. -/
structure Caps where
  env : String → Option String
  home : String
  file : String → FileOutcome
  keyring : String → String → KeyringOutcome

/-- The `ResolutionError` class: a message and the raw placeholder string. -/
structure ResolutionError where
  message : String
  placeholder : String
deriving DecidableEq, Repr

/-- `Placeholder "<p>" ` — the opening shared by every resolver message. -/
def phLead (p : String) : String :=
  "Placeholder \"" ++ p ++ "\" "

/-- Error message for `env:` with an empty name. -/
def envEmptyMsg (p : String) : String :=
  phLead p ++ "invalid: environment variable name cannot be empty."

/-- Error message for an unset environment variable. -/
def envUnsetMsg (p v : String) : String :=
  phLead p ++ ("resolution failed: environment variable \"" ++ (v ++ "\" is not set."))

/-- Error message for `file:` with an empty path. -/
def fileEmptyMsg (p : String) : String :=
  phLead p ++ "invalid: file path cannot be empty."

/-- Error message for a missing file (ENOENT). -/
def fileNotFoundMsg (p ep : String) : String :=
  phLead p ++ ("resolution failed: file not found at \"" ++ (ep ++ "\"."))

/-- Error message for any other file read failure; ends with the underlying
error's message. -/
def fileReadFailedMsg (p ep m : String) : String :=
  (phLead p ++ ("resolution failed: failed to read file \"" ++ (ep ++ "\": "))) ++ m

/-- Error message for a malformed `keyring:` placeholder. -/
def keyringFormatMsg (p : String) : String :=
  phLead p ++ "invalid format: expected \"keyring:service:account\"."

/-- The `secret not found in keychain` message built when the getter returns
`null`. -/
def secretNotFoundMsg (p s a : String) : String :=
  phLead p ++ ("resolution failed: secret not found in keychain for service=\"" ++
    (s ++ ("\", account=\"" ++ (a ++ "\"."))))

/-- The `could not get secret` base message of the keyring catch block. -/
def keyringBaseMsg (p s a : String) : String :=
  phLead p ++ ("resolution failed: could not get secret from keychain for service=\"" ++
    (s ++ ("\", account=\"" ++ (a ++ "\""))))

/-- Message surfaced when the getter throws with message `m`: the catch block
appends the underlying cause. -/
def keyringFailMsg (p s a m : String) : String :=
  keyringBaseMsg p s a ++ (": " ++ m)

/-- Message surfaced when the getter returns `null`: the `secret not found`
throw happens inside the `try`, so the catch block wraps it in the
`could not get secret` base message. -/
def keyringAbsentMsg (p s a : String) : String :=
  keyringBaseMsg p s a ++ (": " ++ secretNotFoundMsg p s a)

/-- `resolveSinglePlaceholder` (src/placeholder-resolver.ts, current revision
with the injectable getter).  Returns the JS function's result together with
the list of (service, account) arguments the credential capability was
invoked with, in order. -/
def resolveSingle (caps : Caps) (placeholder : String) :
    Except ResolutionError String × List (String × String) :=
  if strStartsWith placeholder "env:" then
    if strDrop placeholder 4 = "" then
      (Except.error ⟨envEmptyMsg placeholder, placeholder⟩, [])
    else
      match caps.env (strDrop placeholder 4) with
      | none =>
          (Except.error ⟨envUnsetMsg placeholder (strDrop placeholder 4), placeholder⟩, [])
      | some v => (Except.ok v, [])
  else if strStartsWith placeholder "file:" then
    if strDrop placeholder 5 = "" then
      (Except.error ⟨fileEmptyMsg placeholder, placeholder⟩, [])
    else
      match caps.file (untildify caps.home (strDrop placeholder 5)) with
      | FileOutcome.content c => (Except.ok (jsTrim c), [])
      | FileOutcome.enoent =>
          (Except.error ⟨fileNotFoundMsg placeholder
            (untildify caps.home (strDrop placeholder 5)), placeholder⟩, [])
      | FileOutcome.ioError m =>
          (Except.error ⟨fileReadFailedMsg placeholder
            (untildify caps.home (strDrop placeholder 5)) m, placeholder⟩, [])
  else if strStartsWith placeholder "keyring:" then
    match strSplit (strDrop placeholder 8) ':' with
    | [service, account] =>
      if service = "" ∨ account = "" then
        (Except.error ⟨keyringFormatMsg placeholder, placeholder⟩, [])
      else
        match caps.keyring service account with
        | KeyringOutcome.found s => (Except.ok s, [(service, account)])
        | KeyringOutcome.absent =>
            (Except.error ⟨keyringAbsentMsg placeholder service account, placeholder⟩,
             [(service, account)])
        | KeyringOutcome.failure m =>
            (Except.error ⟨keyringFailMsg placeholder service account m, placeholder⟩,
             [(service, account)])
    | _ => (Except.error ⟨keyringFormatMsg placeholder, placeholder⟩, [])
  else
    (Except.ok placeholder, [])

/-- The value a single placeholder resolves to, if it resolves. -/
def resolveValue (caps : Caps) (v : String) : Option String :=
  match (resolveSingle caps v).1 with
  | Except.ok s => some s
  | Except.error _ => none

/-- The source's test `parts.length !== 2 || !parts[0] || !parts[1]` on the
remainder after `keyring:`. -/
def malformedKeyringRest (R : String) : Bool :=
  match strSplit R ':' with
  | [s, a] => s == "" || a == ""
  | _ => true

/-- Helper for the aggregate error message's regex
`replace(/^Placeholder .* resolution failed: /, '')`: the suffix after the
last occurrence of `sep` in the list that is not preceded by a newline
(`.` does not match newlines), if any. -/
def lastSepSuffix (sep : List Char) : List Char → Option (List Char)
  | [] => none
  | c :: cs =>
    match lastSepSuffix sep cs with
    | some r => if c = '\n' then none else some r
    | none =>
      if c = '\n' then none
      else if chPref sep (c :: cs) then some ((c :: cs).drop sep.length) else none

/-- JS `msg.replace(/^Placeholder .* resolution failed: /, '')`, used by
`resolvePlaceholders` to re-annotate a unit's error message. -/
def stripResolutionLead (msg : String) : String :=
  if strStartsWith msg "Placeholder " then
    match lastSepSuffix (" resolution failed: ").data (msg.data.drop 12) with
    | some r => String.mk r
    | none => msg
  else msg

/-- The aggregate error message
`Placeholder "<pl>" for env var "<key>" resolution failed: <stripped unit message>`. -/
def aggMsg (pl key m : String) : String :=
  ("Placeholder \"" ++ pl ++ "\" for env var \"") ++
    (key ++ ("\" resolution failed: " ++ stripResolutionLead m))

/-- JS object assignment `o[k] = v`: update an existing binding in place,
otherwise append a new one. -/
def setObj : List (String × String) → String → String → List (String × String)
  | [], k, v => [(k, v)]
  | (k', v') :: rest, k, v =>
    if k' = k then (k', v) :: rest else (k', v') :: setObj rest k v

/-- JS object property read `o[k]`. -/
def lookupObj : List (String × String) → String → Option String
  | [], _ => none
  | (k', v') :: rest, k => if k' = k then some v' else lookupObj rest k

/-- The sequential core of `resolvePlaceholders`: resolve each
`(key, value)` instruction in turn, writing successes into the accumulator
object and stopping at the first failing unit with its annotated error.
(The JS version schedules the units concurrently under `Promise.all`; the
failure surfaced is some failing unit's annotated error, here the leftmost.) -/
def rpGo (caps : Caps) : List (String × String) → List (String × String) →
    Except ResolutionError (List (String × String))
  | [], acc => Except.ok acc
  | (key, value) :: rest, acc =>
    match (resolveSingle caps value).1 with
    | Except.ok v => rpGo caps rest (setObj acc key v)
    | Except.error e =>
        Except.error ⟨aggMsg e.placeholder key e.message, e.placeholder⟩

/-- `resolvePlaceholders` (src/placeholder-resolver.ts): resolve every
instruction, returning the resolved object, or the first failing unit's
error annotated with the variable name it was resolving for. -/
def resolvePlaceholders (caps : Caps) (instrs : List (String × String)) :
    Except ResolutionError (List (String × String)) :=
  rpGo caps instrs []

/-- The environment composer `{...inherited, ...resolved}`: copy `inherited`,
then assign every binding of `resolved` over it in order. -/
def compose (inherited resolved : List (String × String)) : List (String × String) :=
  resolved.foldl (fun acc p => setObj acc p.1 p.2) inherited

/-- Outcome of the launcher's pre-spawn phase: either the process terminated
with an exit code before any child was created, or a child was spawned with
the given final environment. -/
inductive LaunchStep where
  | exited (code : Nat)
  | spawned (env : List (String × String))
deriving DecidableEq, Repr

/-- The launcher main flow around resolution (src/index.ts, current revision):
start from a copy of the inherited environment; when an instructions map was
provided, resolve it — on any resolution error exit with code 1 before any
spawn; on success overlay the resolved map and spawn with the composed
environment. -/
def launchPhase (caps : Caps) (inherited : List (String × String))
    (instructions : Option (List (String × String))) : LaunchStep :=
  match instructions with
  | none => LaunchStep.spawned inherited
  | some instrs =>
    match resolvePlaceholders caps instrs with
    | Except.error _ => LaunchStep.exited 1
    | Except.ok resolved => LaunchStep.spawned (compose inherited resolved)

/-- A child-process lifecycle event as delivered to the supervisor's
handlers: the `exit` event with `(code, signal)`, or the `error` event with
the error's `code` property and message. -/
inductive ChildEvent where
  | exit (code : Option Nat) (signal : Option String)
  | error (errCode : Option String) (message : String)
deriving DecidableEq, Repr

/-- The `[mcp-safe-run] ` log tag. -/
def supTag : String := "[mcp-safe-run] "

/-- Stderr report for a signal-killed child. -/
def signalReport (sig : String) : String :=
  supTag ++ ("Target process killed by signal " ++ sig)

/-- Stderr report for a normally exited child (JS prints `null` for a null
code). -/
def exitReport (code : Option Nat) : String :=
  supTag ++ ("Target process exited with code " ++
    (match code with | some n => toString n | none => "null"))

/-- Stderr report for a spawn failure whose cause is ENOENT: a distinct
message naming the attempted command. -/
def notFoundReport (cmd : String) : String :=
  supTag ++ ("Target command not found: " ++ cmd)

/-- Stderr report for any other spawn/management failure. -/
def spawnErrorReport (m : String) : String :=
  supTag ++ ("Error spawning target process: " ++ m)

/-- The supervisor's `child.on('exit')` / `child.on('error')` handlers
(src/index.ts, current revision), as a map from the delivered event to the
supervisor's own exit code and the stderr report it prints. -/
def onChildEvent (cmd : String) : ChildEvent → Nat × String
  | ChildEvent.exit _ (some sig) => (1, signalReport sig)
  | ChildEvent.exit code none => (code.getD 0, exitReport code)
  | ChildEvent.error errCode m =>
    if errCode = some "ENOENT" then (1, notFoundReport cmd)
    else (1, spawnErrorReport m)

/-- An action a supervisor signal handler performs: send a signal to the
child now, or arm a timer that performs another action after `ms`
milliseconds. -/
inductive SupAction where
  | killChild (sig : String)
  | armTimer (ms : Nat) (fire : SupAction)
deriving DecidableEq, Repr

/-- Whether an action arms an escalation timer. -/
def isTimer : SupAction → Bool
  | SupAction.armTimer _ _ => true
  | _ => false

/-- The supervisor's signal handlers (src/index.ts, current revision):
handlers are installed for SIGINT and SIGTERM only; each handler relays the
received signal to the child and arms a single 1000 ms timer that sends
SIGKILL unconditionally when it fires. -/
def supervisorSignalHandler (sig : String) : Option (List SupAction) :=
  if sig = "SIGINT" ∨ sig = "SIGTERM" then
    some [SupAction.killChild sig, SupAction.armTimer 1000 (SupAction.killChild "SIGKILL")]
  else none

/-- Concrete capabilities for witnesses: `HOME` is the only set environment
variable, every file read fails with ENOENT, every credential is absent. -/
def testCaps : Caps where
  env := fun n => if n = "HOME" then some "/home/u" else none
  home := "/home/u"
  file := fun _ => FileOutcome.enoent
  keyring := fun _ _ => KeyringOutcome.absent

/-- Concrete capabilities for the file witness: every file read succeeds with
the content `"secret_from_file\n"`. -/
def fileTestCaps : Caps where
  env := fun _ => none
  home := "/home/u"
  file := fun _ => FileOutcome.content "secret_from_file\n"
  keyring := fun _ _ => KeyringOutcome.absent

/-! Helper lemmas. -/

theorem strData_append (a b : String) : (a ++ b).data = a.data ++ b.data := rfl

theorem strMk_data (s : String) : String.mk s.data = s := rfl

theorem strEq_of_data (a b : String) (h : a.data = b.data) : a = b := by
  cases a
  cases b
  exact congrArg String.mk h

theorem strAppend_cancel (x a b : String) (h : x ++ a = x ++ b) : a = b := by
  have h2 : x.data ++ a.data = x.data ++ b.data := by
    have h1 := congrArg String.data h
    simpa [strData_append] using h1
  exact strEq_of_data a b (List.append_cancel_left h2)

theorem ne_append_of_head_ne (x a b : String) (c d : Char)
    (hc : a.data.head? = some c) (hd : b.data.head? = some d) (hcd : c ≠ d) :
    x ++ a ≠ x ++ b := by
  intro h
  have h3 := congrArg (fun s => String.data s) (strAppend_cancel x a b h)
  simp only at h3
  rw [h3, hd] at hc
  exact hcd (Option.some.inj hc).symm

theorem splitCharList_not_mem (c : Char) (l : List Char) (h : c ∉ l) :
    splitCharList c l = [l] := by
  induction l with
  | nil => rfl
  | cons x xs ih =>
    have hx : x ≠ c := fun hxc => h (hxc ▸ List.mem_cons_self x xs)
    have hxs : c ∉ xs := fun hmem => h (List.mem_cons_of_mem x hmem)
    simp [splitCharList, ih hxs, hx]

theorem splitCharList_mid (c : Char) (l₁ l₂ : List Char) (h₁ : c ∉ l₁) (h₂ : c ∉ l₂) :
    splitCharList c (l₁ ++ c :: l₂) = [l₁, l₂] := by
  induction l₁ with
  | nil => simp [splitCharList, splitCharList_not_mem c l₂ h₂]
  | cons x xs ih =>
    have hx : x ≠ c := fun hxc => h₁ (hxc ▸ List.mem_cons_self x xs)
    have hxs : c ∉ xs := fun hmem => h₁ (List.mem_cons_of_mem x hmem)
    simp [splitCharList, ih hxs, hx]

theorem strSplit_two (S A : String) (hS : ':' ∉ S.data) (hA : ':' ∉ A.data) :
    strSplit (String.mk ((S.data ++ [':']) ++ A.data)) ':' = [S, A] := by
  have h : (S.data ++ [':']) ++ A.data = S.data ++ ':' :: A.data := by
    simp
  unfold strSplit
  rw [show (String.mk ((S.data ++ [':']) ++ A.data)).data = (S.data ++ [':']) ++ A.data from rfl,
      h, splitCharList_mid ':' S.data A.data hS hA]
  simp [strMk_data]

theorem jsTrim_decomp (s : String) :
    ∃ l r, s.data = l ++ (jsTrim s).data ++ r ∧
      (∀ ch ∈ l, ch.isWhitespace = true) ∧ (∀ ch ∈ r, ch.isWhitespace = true) := by
  refine ⟨s.data.takeWhile Char.isWhitespace,
    ((s.data.dropWhile Char.isWhitespace).reverse.takeWhile Char.isWhitespace).reverse,
    ?_, ?_, ?_⟩
  · have h1 : s.data.takeWhile Char.isWhitespace ++ s.data.dropWhile Char.isWhitespace
        = s.data := List.takeWhile_append_dropWhile Char.isWhitespace s.data
    have h2 := congrArg List.reverse
      (List.takeWhile_append_dropWhile Char.isWhitespace
        (s.data.dropWhile Char.isWhitespace).reverse)
    simp only [List.reverse_append, List.reverse_reverse] at h2
    conv_lhs => rw [← h1]
    rw [show (jsTrim s).data =
      ((s.data.dropWhile Char.isWhitespace).reverse.dropWhile Char.isWhitespace).reverse from rfl]
    rw [List.append_assoc, h2]
  · intro ch hch
    exact List.mem_takeWhile_imp hch
  · intro ch hch
    rw [List.mem_reverse] at hch
    exact List.mem_takeWhile_imp hch

theorem resolveSingle_env (caps : Caps) (N : String) :
    resolveSingle caps ("env:" ++ N) =
      (if N = "" then
        (Except.error ⟨envEmptyMsg ("env:" ++ N), "env:" ++ N⟩, [])
      else
        match caps.env N with
        | none => (Except.error ⟨envUnsetMsg ("env:" ++ N) N, "env:" ++ N⟩, [])
        | some v => (Except.ok v, [])) := rfl

theorem resolveSingle_file (caps : Caps) (P : String) :
    resolveSingle caps ("file:" ++ P) =
      (if P = "" then
        (Except.error ⟨fileEmptyMsg ("file:" ++ P), "file:" ++ P⟩, [])
      else
        match caps.file (untildify caps.home P) with
        | FileOutcome.content c => (Except.ok (jsTrim c), [])
        | FileOutcome.enoent =>
            (Except.error ⟨fileNotFoundMsg ("file:" ++ P) (untildify caps.home P),
              "file:" ++ P⟩, [])
        | FileOutcome.ioError m =>
            (Except.error ⟨fileReadFailedMsg ("file:" ++ P) (untildify caps.home P) m,
              "file:" ++ P⟩, [])) := rfl

theorem resolveSingle_keyring (caps : Caps) (R : String) :
    resolveSingle caps ("keyring:" ++ R) =
      (match strSplit R ':' with
       | [service, account] =>
         if service = "" ∨ account = "" then
           (Except.error ⟨keyringFormatMsg ("keyring:" ++ R), "keyring:" ++ R⟩, [])
         else
           match caps.keyring service account with
           | KeyringOutcome.found s => (Except.ok s, [(service, account)])
           | KeyringOutcome.absent =>
               (Except.error ⟨keyringAbsentMsg ("keyring:" ++ R) service account,
                 "keyring:" ++ R⟩, [(service, account)])
           | KeyringOutcome.failure m =>
               (Except.error ⟨keyringFailMsg ("keyring:" ++ R) service account m,
                 "keyring:" ++ R⟩, [(service, account)])
       | _ => (Except.error ⟨keyringFormatMsg ("keyring:" ++ R), "keyring:" ++ R⟩, [])) := rfl

theorem envUnsetMsg_ne_envEmptyMsg (p v : String) : envUnsetMsg p v ≠ envEmptyMsg p :=
  ne_append_of_head_ne (phLead p) _ _ 'r' 'i' rfl rfl (by decide)

theorem notFoundReport_ne_spawnErrorReport (cmd m : String) :
    notFoundReport cmd ≠ spawnErrorReport m :=
  ne_append_of_head_ne supTag _ _ 'T' 'E' rfl rfl (by decide)

theorem keyringFailMsg_eq_absent_imp (p s a m : String) :
    keyringFailMsg p s a m = keyringAbsentMsg p s a → m = secretNotFoundMsg p s a := by
  intro h
  have h1 := strAppend_cancel (keyringBaseMsg p s a) _ _ h
  exact strAppend_cancel ": " _ _ h1

theorem resolveSingle_error_placeholder (caps : Caps) (p : String) (e : ResolutionError)
    (h : (resolveSingle caps p).1 = Except.error e) : e.placeholder = p := by
  unfold resolveSingle at h
  repeat' split at h
  all_goals
    first
      | exact (congrArg ResolutionError.placeholder (Except.error.inj h)).symm
      | exact absurd h (by simp)

theorem rpGo_ok_iff (caps : Caps) (instrs : List (String × String)) :
    ∀ acc, (∃ res, rpGo caps instrs acc = Except.ok res) ↔
      ∀ p ∈ instrs, (resolveValue caps p.2).isSome = true := by
  induction instrs with
  | nil =>
    intro acc
    constructor
    · intro _ p hp
      cases hp
    · intro _
      exact ⟨acc, rfl⟩
  | cons q rest ih =>
    intro acc
    obtain ⟨key, value⟩ := q
    constructor
    · intro ⟨res, hres⟩ p hp
      unfold rpGo at hres
      rcases hone : (resolveSingle caps value).1 with e | v
      · rw [hone] at hres
        cases hres
      · rw [hone] at hres
        rcases List.mem_cons.mp hp with hp | hp
        · subst hp
          simp [resolveValue, hone]
        · exact ((ih (setObj acc key v)).mp ⟨res, hres⟩) p hp
    · intro hall
      have hhead := hall (key, value) (List.mem_cons_self _ _)
      unfold resolveValue at hhead
      rcases hone : (resolveSingle caps value).1 with e | v
      · rw [hone] at hhead
        cases hhead
      · have htail := (ih (setObj acc key v)).mpr
          (fun p hp => hall p (List.mem_cons_of_mem _ hp))
        obtain ⟨res, hres⟩ := htail
        refine ⟨res, ?_⟩
        unfold rpGo
        rw [hone]
        exact hres

theorem rpGo_error (caps : Caps) (instrs : List (String × String)) :
    ∀ acc e, rpGo caps instrs acc = Except.error e →
      ∃ K V e₀, (K, V) ∈ instrs ∧ (resolveSingle caps V).1 = Except.error e₀ ∧
        e = ⟨aggMsg e₀.placeholder K e₀.message, e₀.placeholder⟩ := by
  induction instrs with
  | nil =>
    intro acc e h
    cases h
  | cons q rest ih =>
    intro acc e h
    obtain ⟨key, value⟩ := q
    unfold rpGo at h
    rcases hone : (resolveSingle caps value).1 with e₀ | v
    · rw [hone] at h
      refine ⟨key, value, e₀, List.mem_cons_self _ _, hone, ?_⟩
      exact (Except.error.inj h).symm
    · rw [hone] at h
      obtain ⟨K, V, e₀, hmem, hunit, heq⟩ := ih (setObj acc key v) e h
      exact ⟨K, V, e₀, List.mem_cons_of_mem _ hmem, hunit, heq⟩

theorem setObj_notmem (o : List (String × String)) (k v : String)
    (h : k ∉ o.map Prod.fst) : setObj o k v = o ++ [(k, v)] := by
  induction o with
  | nil => rfl
  | cons q rest ih =>
    obtain ⟨k', v'⟩ := q
    have hk : k' ≠ k := by
      intro hk
      exact h (by simp [hk])
    have hrest : k ∉ rest.map Prod.fst := by
      intro hmem
      exact h (by simp [hmem])
    simp [setObj, hk, ih hrest]

theorem rpGo_ok_eq (caps : Caps) (instrs : List (String × String)) :
    ∀ acc res, (∀ a ∈ acc.map Prod.fst, a ∉ instrs.map Prod.fst) →
      (instrs.map Prod.fst).Nodup →
      rpGo caps instrs acc = Except.ok res →
      res = acc ++ instrs.map (fun p => (p.1, (resolveValue caps p.2).getD "")) := by
  induction instrs with
  | nil =>
    intro acc res _ _ h
    simpa using (Except.ok.inj h).symm
  | cons q rest ih =>
    intro acc res hdisj hnodup h
    obtain ⟨key, value⟩ := q
    unfold rpGo at h
    rcases hone : (resolveSingle caps value).1 with e | v
    · rw [hone] at h
      cases h
    · rw [hone] at h
      have hkacc : key ∉ acc.map Prod.fst := by
        intro hmem
        exact hdisj key hmem (by simp)
      have hknr : key ∉ rest.map Prod.fst := by
        have := hnodup
        simp only [List.map_cons, List.nodup_cons] at this
        exact this.1
      have hdisj' : ∀ a ∈ (setObj acc key v).map Prod.fst, a ∉ rest.map Prod.fst := by
        intro a ha
        rw [setObj_notmem acc key v hkacc] at ha
        simp only [List.map_append, List.mem_append] at ha
        rcases ha with ha | ha
        · intro hmem
          exact hdisj a ha (by simp [hmem])
        · simp only [List.map_cons, List.map_nil, List.mem_cons] at ha
          rcases ha with ha | ha
          · subst ha
            exact hknr
          · cases ha
      have hnodup' : (rest.map Prod.fst).Nodup := by
        have := hnodup
        simp only [List.map_cons, List.nodup_cons] at this
        exact this.2
      have hres := ih (setObj acc key v) res hdisj' hnodup' h
      rw [setObj_notmem acc key v hkacc] at hres
      rw [hres]
      simp [resolveValue, hone]

theorem lookup_setObj_self (o : List (String × String)) (k v : String) :
    lookupObj (setObj o k v) k = some v := by
  induction o with
  | nil => simp [setObj, lookupObj]
  | cons q rest ih =>
    obtain ⟨k', v'⟩ := q
    by_cases hk : k' = k
    · simp [setObj, lookupObj, hk]
    · simp [setObj, lookupObj, hk, ih]

theorem lookup_setObj_ne (o : List (String × String)) (k v k' : String) (h : k' ≠ k) :
    lookupObj (setObj o k v) k' = lookupObj o k' := by
  induction o with
  | nil =>
    have hne : ¬k = k' := fun hh => h hh.symm
    simp [setObj, lookupObj, hne]
  | cons q rest ih =>
    obtain ⟨k₀, v₀⟩ := q
    by_cases hk : k₀ = k
    · subst hk
      have hne : ¬k₀ = k' := fun hh => h hh.symm
      simp [setObj, lookupObj, hne]
    · by_cases hk' : k₀ = k'
      · simp [setObj, lookupObj, hk, hk', h]
      · simp [setObj, lookupObj, hk, hk', ih]

theorem lookup_notmem (o : List (String × String)) (k : String)
    (h : k ∉ o.map Prod.fst) : lookupObj o k = none := by
  induction o with
  | nil => rfl
  | cons q rest ih =>
    obtain ⟨k₀, v₀⟩ := q
    have hk : ¬k₀ = k := by
      intro hh
      exact h (by simp [hh])
    have hrest : k ∉ rest.map Prod.fst := by
      intro hh
      exact h (by simp [hh])
    simp [lookupObj, hk, ih hrest]

theorem lookup_compose (resolved : List (String × String)) :
    ∀ inherited k, (resolved.map Prod.fst).Nodup →
      lookupObj (compose inherited resolved) k =
        (match lookupObj resolved k with
         | some v => some v
         | none => lookupObj inherited k) := by
  induction resolved with
  | nil =>
    intro inherited k _
    simp [compose, lookupObj]
  | cons q rest ih =>
    intro inherited k hnodup
    obtain ⟨k₀, v₀⟩ := q
    have hnodup' : (rest.map Prod.fst).Nodup := by
      simp only [List.map_cons, List.nodup_cons] at hnodup
      exact hnodup.2
    have hk₀ : k₀ ∉ rest.map Prod.fst := by
      simp only [List.map_cons, List.nodup_cons] at hnodup
      exact hnodup.1
    have hstep : compose inherited ((k₀, v₀) :: rest) =
        compose (setObj inherited k₀ v₀) rest := rfl
    rw [hstep, ih (setObj inherited k₀ v₀) k hnodup']
    by_cases hk : k₀ = k
    · subst hk
      rw [lookup_notmem rest k₀ hk₀, lookup_setObj_self]
      simp [lookupObj]
    · rw [lookup_setObj_ne inherited k₀ v₀ k (fun hh => hk hh.symm)]
      simp [lookupObj, hk]

theorem setObj_keys_sub (k₀ v₀ k : String) :
    ∀ o : List (String × String), k ∈ (setObj o k₀ v₀).map Prod.fst →
      k ∈ o.map Prod.fst ∨ k = k₀ := by
  intro o
  induction o with
  | nil =>
    intro hh
    rw [show setObj [] k₀ v₀ = [(k₀, v₀)] from rfl, List.map_cons, List.map_nil,
      List.mem_cons] at hh
    rcases hh with hh | hh
    · exact Or.inr hh
    · cases hh
  | cons r rs ihr =>
    obtain ⟨rk, rv⟩ := r
    intro hh
    rw [show setObj ((rk, rv) :: rs) k₀ v₀ =
        (if rk = k₀ then (rk, v₀) :: rs else (rk, rv) :: setObj rs k₀ v₀) from rfl] at hh
    by_cases hrk : rk = k₀
    · rw [if_pos hrk, List.map_cons, List.mem_cons] at hh
      rcases hh with hh | hh
      · exact Or.inl (by rw [List.map_cons]; exact List.mem_cons.mpr (Or.inl hh))
      · exact Or.inl (by rw [List.map_cons]; exact List.mem_cons.mpr (Or.inr hh))
    · rw [if_neg hrk, List.map_cons, List.mem_cons] at hh
      rcases hh with hh | hh
      · exact Or.inl (by rw [List.map_cons]; exact List.mem_cons.mpr (Or.inl hh))
      · rcases ihr hh with h2 | h2
        · exact Or.inl (by rw [List.map_cons]; exact List.mem_cons.mpr (Or.inr h2))
        · exact Or.inr h2

theorem compose_keys_sub (resolved : List (String × String)) :
    ∀ inherited k, k ∈ (compose inherited resolved).map Prod.fst →
      k ∈ inherited.map Prod.fst ∨ k ∈ resolved.map Prod.fst := by
  induction resolved with
  | nil =>
    intro inherited k h
    exact Or.inl h
  | cons q rest ih =>
    intro inherited k h
    obtain ⟨k₀, v₀⟩ := q
    have hstep : compose inherited ((k₀, v₀) :: rest) =
        compose (setObj inherited k₀ v₀) rest := rfl
    rw [hstep] at h
    rcases ih (setObj inherited k₀ v₀) k h with h1 | h1
    · rcases setObj_keys_sub k₀ v₀ k inherited h1 with h2 | h2
      · exact Or.inl h2
      · exact Or.inr (by simp [h2])
    · exact Or.inr (by simp [h1])

theorem launchPhase_some (caps : Caps) (inherited instrs : List (String × String)) :
    launchPhase caps inherited (some instrs) =
      (match resolvePlaceholders caps instrs with
       | Except.error _ => LaunchStep.exited 1
       | Except.ok resolved => LaunchStep.spawned (compose inherited resolved)) := rfl

/-! The claims. -/

/-- C2: for every placeholder `"keyring:" ++ R` whose remainder `R` does not
split into exactly two non-empty colon-delimited fields,
`resolveSinglePlaceholder` fails with the malformed-format
(`InvalidReference`) error and the credential-lookup capability is invoked
zero times (the invocation trace is empty), for every capability assignment —
in particular whether the keyring capability is available or not. -/
theorem keyring_malformed_invalid_reference (caps : Caps) (R : String)
    (h : malformedKeyringRest R = true) :
    resolveSingle caps ("keyring:" ++ R) =
      (Except.error ⟨keyringFormatMsg ("keyring:" ++ R), "keyring:" ++ R⟩, []) := by
  rw [resolveSingle_keyring]
  unfold malformedKeyringRest at h
  split
  next service account heq =>
    rw [heq] at h
    simp only [Bool.or_eq_true, beq_iff_eq] at h
    rw [if_pos h]
  next _ _ =>
    rfl

/-- Witness for C2 at `R = "onlyone"` with the all-absent capabilities. -/
theorem keyring_malformed_invalid_reference_witness :
    malformedKeyringRest "onlyone" = true ∧
    resolveSingle testCaps ("keyring:" ++ "onlyone") =
      (Except.error ⟨keyringFormatMsg ("keyring:" ++ "onlyone"), "keyring:" ++ "onlyone"⟩,
        []) :=
  ⟨by decide, keyring_malformed_invalid_reference testCaps "onlyone" (by decide)⟩

/-- C3: for non-empty colon-free `S` and `A`, when the credential capability
reports the secret absent for `(S, A)`, `resolveSinglePlaceholder` on
`"keyring:" ++ S ++ ":" ++ A` invokes the capability exactly once with
exactly `(S, A)` (the trace is `[(S, A)]`) and fails with the
secret-not-found error; and that error's message differs from the message
produced when the capability itself fails with cause `m`, for every cause
`m` other than the secret-not-found text itself. -/
theorem keyring_absent_secret_not_found (caps : Caps) (S A : String)
    (hS : S ≠ "") (hA : A ≠ "") (hSc : ':' ∉ S.data) (hAc : ':' ∉ A.data)
    (habs : caps.keyring S A = KeyringOutcome.absent) :
    resolveSingle caps ("keyring:" ++ S ++ ":" ++ A) =
      (Except.error ⟨keyringAbsentMsg ("keyring:" ++ S ++ ":" ++ A) S A,
        "keyring:" ++ S ++ ":" ++ A⟩, [(S, A)]) ∧
    ∀ m, m ≠ secretNotFoundMsg ("keyring:" ++ S ++ ":" ++ A) S A →
      keyringFailMsg ("keyring:" ++ S ++ ":" ++ A) S A m ≠
        keyringAbsentMsg ("keyring:" ++ S ++ ":" ++ A) S A := by
  constructor
  · have hph : "keyring:" ++ S ++ ":" ++ A =
        "keyring:" ++ String.mk ((S.data ++ [':']) ++ A.data) := by
      apply strEq_of_data
      simp [strData_append]
    rw [hph, resolveSingle_keyring, strSplit_two S A hSc hAc]
    have hne : ¬(S = "" ∨ A = "") := by
      rintro (hh | hh)
      exacts [hS hh, hA hh]
    simp only [hne, if_false, habs]
  · intro m hm hcon
    exact hm (keyringFailMsg_eq_absent_imp _ _ _ _ hcon)

/-- Witness for C3 at `S = "svc"`, `A = "acct"` with the all-absent
capabilities. -/
theorem keyring_absent_secret_not_found_witness :
    resolveSingle testCaps ("keyring:" ++ "svc" ++ ":" ++ "acct") =
      (Except.error ⟨keyringAbsentMsg ("keyring:" ++ "svc" ++ ":" ++ "acct") "svc" "acct",
        "keyring:" ++ "svc" ++ ":" ++ "acct"⟩, [("svc", "acct")]) :=
  (keyring_absent_secret_not_found testCaps "svc" "acct" (by decide) (by decide)
    (by decide) (by decide) rfl).1

/-- C7: `"env:"` with an empty name fails with the `InvalidReference`
(empty-name) error; for non-empty `N`, an unset `N` fails with the `Unset`
error, whose message differs from the empty-name error's, and never yields a
success (in particular not the empty string); a set `N` resolves to its
inherited value. -/
theorem env_placeholder_semantics (caps : Caps) (N : String) :
    resolveSingle caps "env:" = (Except.error ⟨envEmptyMsg "env:", "env:"⟩, []) ∧
    (N ≠ "" → caps.env N = none →
      resolveSingle caps ("env:" ++ N) =
        (Except.error ⟨envUnsetMsg ("env:" ++ N) N, "env:" ++ N⟩, []) ∧
      envUnsetMsg ("env:" ++ N) N ≠ envEmptyMsg ("env:" ++ N) ∧
      ∀ v, (resolveSingle caps ("env:" ++ N)).1 ≠ Except.ok v) ∧
    (∀ v, N ≠ "" → caps.env N = some v →
      resolveSingle caps ("env:" ++ N) = (Except.ok v, [])) := by
  refine ⟨rfl, ?_, ?_⟩
  · intro hN hnone
    rw [resolveSingle_env, if_neg hN, hnone]
    refine ⟨rfl, envUnsetMsg_ne_envEmptyMsg _ _, ?_⟩
    intro v hv
    cases hv
  · intro v hN hsome
    rw [resolveSingle_env, if_neg hN, hsome]

/-- Witness for C7 at `N = "FOO"`, unset in the test capabilities. -/
theorem env_placeholder_semantics_witness :
    resolveSingle testCaps ("env:" ++ "FOO") =
      (Except.error ⟨envUnsetMsg ("env:" ++ "FOO") "FOO", "env:" ++ "FOO"⟩, []) :=
  ((env_placeholder_semantics testCaps "FOO").2.1 (by decide) rfl).1

/-- C8: for non-empty `P`, a successful read of the (tilde-expanded) path
returns the file content trimmed of leading and trailing whitespace only
(the trimmed content is an inner segment of the original, and everything
dropped on either side is whitespace); an ENOENT read fails with the
`NotFound` error; any other I/O failure fails with the `ReadFailed` error
whose message ends with the underlying cause. -/
theorem file_placeholder_semantics (caps : Caps) (P : String) (hP : P ≠ "") :
    (∀ c, caps.file (untildify caps.home P) = FileOutcome.content c →
      resolveSingle caps ("file:" ++ P) = (Except.ok (jsTrim c), []) ∧
      ∃ l r, c.data = l ++ (jsTrim c).data ++ r ∧
        (∀ ch ∈ l, ch.isWhitespace = true) ∧ (∀ ch ∈ r, ch.isWhitespace = true)) ∧
    (caps.file (untildify caps.home P) = FileOutcome.enoent →
      resolveSingle caps ("file:" ++ P) =
        (Except.error ⟨fileNotFoundMsg ("file:" ++ P) (untildify caps.home P),
          "file:" ++ P⟩, [])) ∧
    (∀ m, caps.file (untildify caps.home P) = FileOutcome.ioError m →
      resolveSingle caps ("file:" ++ P) =
        (Except.error ⟨fileReadFailedMsg ("file:" ++ P) (untildify caps.home P) m,
          "file:" ++ P⟩, []) ∧
      ∃ pre, fileReadFailedMsg ("file:" ++ P) (untildify caps.home P) m = pre ++ m) := by
  refine ⟨?_, ?_, ?_⟩
  · intro c hc
    rw [resolveSingle_file, if_neg hP, hc]
    exact ⟨rfl, jsTrim_decomp c⟩
  · intro hc
    rw [resolveSingle_file, if_neg hP, hc]
  · intro m hm
    rw [resolveSingle_file, if_neg hP, hm]
    exact ⟨rfl, _, rfl⟩

/-- Witness for C8: a file containing `"secret_from_file\n"` resolves to
exactly `"secret_from_file"`. -/
theorem file_placeholder_semantics_witness :
    resolveSingle fileTestCaps ("file:" ++ "/tmp/s") = (Except.ok "secret_from_file", []) := by
  have h := ((file_placeholder_semantics fileTestCaps "/tmp/s" (by decide)).1
    "secret_from_file\n" rfl).1
  rw [h]
  rfl

/-- C5: the aggregate `resolvePlaceholders` succeeds iff every individual
instruction's placeholder resolves; on failure the surfaced error comes from
a failing unit `(K, V)`: its `placeholder` field carries the raw string `V`
and its message is the aggregate template, which contains the variable name
`K`. -/
theorem resolveAll_fail_fast (caps : Caps) (instrs : List (String × String)) :
    ((∃ res, resolvePlaceholders caps instrs = Except.ok res) ↔
      ∀ p ∈ instrs, (resolveValue caps p.2).isSome = true) ∧
    (∀ e, resolvePlaceholders caps instrs = Except.error e →
      ∃ K V e₀, (K, V) ∈ instrs ∧ (resolveSingle caps V).1 = Except.error e₀ ∧
        e.placeholder = V ∧ e.message = aggMsg V K e₀.message ∧
        ∃ pre post, e.message = pre ++ (K ++ post)) := by
  constructor
  · exact rpGo_ok_iff caps instrs []
  · intro e he
    obtain ⟨K, V, e₀, hmem, hunit, heq⟩ := rpGo_error caps instrs [] e he
    have hpl : e₀.placeholder = V := resolveSingle_error_placeholder caps V e₀ hunit
    subst heq
    refine ⟨K, V, e₀, hmem, hunit, by simp [hpl], by simp [hpl], ?_⟩
    exact ⟨"Placeholder \"" ++ e₀.placeholder ++ "\" for env var \"",
      "\" resolution failed: " ++ stripResolutionLead e₀.message, rfl⟩

/-- Witness for C5: with `FOO` unset, `{A: "env:FOO", B: "literal"}` fails
overall. -/
theorem resolveAll_fail_fast_witness :
    ¬∃ res, resolvePlaceholders testCaps [("A", "env:FOO"), ("B", "literal")] =
      Except.ok res := by
  intro hex
  have h := (resolveAll_fail_fast testCaps [("A", "env:FOO"), ("B", "literal")]).1.mp hex
    ("A", "env:FOO") (by decide)
  exact absurd h (by decide)

/-- C10: on any instructions map with pairwise-distinct keys on which it
succeeds, `resolvePlaceholders` returns a map binding exactly the input's
keys, in order, each to the resolution of its own instruction value; and on
the empty map it always succeeds with the empty map. -/
theorem resolveAll_preserves_keys (caps : Caps) (instrs : List (String × String))
    (h : (instrs.map Prod.fst).Nodup) :
    resolvePlaceholders caps [] = Except.ok [] ∧
    ∀ res, resolvePlaceholders caps instrs = Except.ok res →
      res = instrs.map (fun p => (p.1, (resolveValue caps p.2).getD "")) ∧
      res.map Prod.fst = instrs.map Prod.fst := by
  refine ⟨rfl, ?_⟩
  intro res hres
  have heq := rpGo_ok_eq caps instrs [] res (by simp) h hres
  simp only [List.nil_append] at heq
  refine ⟨heq, ?_⟩
  rw [heq, List.map_map]
  rfl

/-- Witness for C10 at a two-key map resolving a literal and a set
environment variable. -/
theorem resolveAll_preserves_keys_witness :
    ([("A", "literal"), ("B", "/home/u")] : List (String × String)).map Prod.fst =
      ([("A", "literal"), ("B", "env:HOME")] : List (String × String)).map Prod.fst :=
  ((resolveAll_preserves_keys testCaps [("A", "literal"), ("B", "env:HOME")]
    (by decide)).2 [("A", "literal"), ("B", "/home/u")] rfl).2

/-- C6: composing a resolved map over the inherited environment maps every
key of `resolved` to its resolved value (overwriting any inherited value),
maps every key of `inherited` absent from `resolved` to its inherited value
unchanged, and contains no key absent from both. -/
theorem compose_overlay_lookup (inherited resolved : List (String × String))
    (h : (resolved.map Prod.fst).Nodup) :
    (∀ k v, lookupObj resolved k = some v →
      lookupObj (compose inherited resolved) k = some v) ∧
    (∀ k, lookupObj resolved k = none →
      lookupObj (compose inherited resolved) k = lookupObj inherited k) ∧
    (∀ k, k ∈ (compose inherited resolved).map Prod.fst →
      k ∈ inherited.map Prod.fst ∨ k ∈ resolved.map Prod.fst) := by
  refine ⟨?_, ?_, fun k => compose_keys_sub resolved inherited k⟩
  · intro k v hv
    rw [lookup_compose resolved inherited k h, hv]
  · intro k hv
    rw [lookup_compose resolved inherited k h, hv]

/-- Witness for C6: `compose({PORT:"8080"}, {PORT:"9000"})` yields
`PORT = "9000"` (resolved wins). -/
theorem compose_overlay_lookup_witness :
    lookupObj (compose [("PORT", "8080")] [("PORT", "9000")]) "PORT" = some "9000" :=
  (compose_overlay_lookup [("PORT", "8080")] [("PORT", "9000")] (by decide)).1
    "PORT" "9000" rfl

/-- C1: when some instruction fails to resolve, the launcher terminates with
exit code 1 before any child is spawned (the launch outcome is `exited 1`,
never `spawned`); conversely a child is spawned only when every instruction
resolved successfully. -/
theorem launch_aborts_on_resolution_failure (caps : Caps)
    (inherited instrs : List (String × String)) :
    ((∃ p ∈ instrs, resolveValue caps p.2 = none) →
      launchPhase caps inherited (some instrs) = LaunchStep.exited 1 ∧
      ∀ env, launchPhase caps inherited (some instrs) ≠ LaunchStep.spawned env) ∧
    (∀ env, launchPhase caps inherited (some instrs) = LaunchStep.spawned env →
      ∀ p ∈ instrs, (resolveValue caps p.2).isSome = true) := by
  constructor
  · intro ⟨p, hp, hnone⟩
    rcases hres : resolvePlaceholders caps instrs with e | res
    · constructor
      · rw [launchPhase_some, hres]
      · intro env
        rw [launchPhase_some, hres]
        exact fun hcon => LaunchStep.noConfusion hcon
    · exfalso
      have hall := (rpGo_ok_iff caps instrs []).mp ⟨res, hres⟩ p hp
      rw [hnone] at hall
      exact Bool.noConfusion hall
  · intro env hsp p hp
    rcases hres : resolvePlaceholders caps instrs with e | res
    · rw [launchPhase_some, hres] at hsp
      exact absurd hsp (fun hcon => LaunchStep.noConfusion hcon)
    · exact (rpGo_ok_iff caps instrs []).mp ⟨res, hres⟩ p hp

/-- Witness for C1: with `FOO` unset, the launch aborts with exit code 1. -/
theorem launch_aborts_on_resolution_failure_witness :
    launchPhase testCaps [("PATH", "/bin")] (some [("A", "env:FOO"), ("B", "literal")]) =
      LaunchStep.exited 1 :=
  ((launch_aborts_on_resolution_failure testCaps [("PATH", "/bin")]
    [("A", "env:FOO"), ("B", "literal")]).1 (by decide)).1

/-- C4: the supervisor mirrors a normal child exit code `c`; exits 1 when the
child is killed by a signal; on a spawn failure it exits 1, with ENOENT
reported by a distinct message naming the attempted command, and any other
cause reported generically — the two reports always differ. -/
theorem supervisor_exit_code_mapping (cmd : String) :
    (∀ c, onChildEvent cmd (ChildEvent.exit (some c) none) = (c, exitReport (some c))) ∧
    (∀ c sig, (onChildEvent cmd (ChildEvent.exit c (some sig))).1 = 1) ∧
    (∀ m, onChildEvent cmd (ChildEvent.error (some "ENOENT") m) = (1, notFoundReport cmd) ∧
      ∃ pre, notFoundReport cmd = pre ++ cmd) ∧
    (∀ ec m, ec ≠ some "ENOENT" →
      onChildEvent cmd (ChildEvent.error ec m) = (1, spawnErrorReport m) ∧
      notFoundReport cmd ≠ spawnErrorReport m) := by
  refine ⟨fun c => rfl, fun c sig => rfl, fun m => ⟨rfl, ?_⟩, fun ec m hec => ⟨?_, ?_⟩⟩
  · refine ⟨supTag ++ "Target command not found: ", ?_⟩
    apply strEq_of_data
    simp [strData_append, notFoundReport]
  · simp [onChildEvent, hec]
  · exact notFoundReport_ne_spawnErrorReport cmd m

/-- Witness for C4 at a non-ENOENT spawn failure. -/
theorem supervisor_exit_code_mapping_witness :
    onChildEvent "mycmd" (ChildEvent.error none "boom") = (1, spawnErrorReport "boom") ∧
    notFoundReport "mycmd" ≠ spawnErrorReport "boom" :=
  (supervisor_exit_code_mapping "mycmd").2.2.2 none "boom" (by decide)

/-- C9: for each of the two handled termination signals, the handler relays
exactly that signal to the child immediately and arms exactly one escalation
timer, a 1000 ms timer whose expiry action is an unconditional SIGKILL of
the child. -/
theorem signal_relay_escalation (sig : String)
    (h : sig = "SIGINT" ∨ sig = "SIGTERM") :
    supervisorSignalHandler sig =
      some [SupAction.killChild sig,
        SupAction.armTimer 1000 (SupAction.killChild "SIGKILL")] ∧
    ∀ acts, supervisorSignalHandler sig = some acts →
      acts.head? = some (SupAction.killChild sig) ∧
      acts.filter isTimer = [SupAction.armTimer 1000 (SupAction.killChild "SIGKILL")] := by
  have hh : supervisorSignalHandler sig =
      some [SupAction.killChild sig,
        SupAction.armTimer 1000 (SupAction.killChild "SIGKILL")] := by
    unfold supervisorSignalHandler
    rw [if_pos h]
  refine ⟨hh, ?_⟩
  intro acts hacts
  rw [hh] at hacts
  have hae := (Option.some.inj hacts).symm
  subst hae
  exact ⟨rfl, rfl⟩

/-- Witness for C9 at SIGINT. -/
theorem signal_relay_escalation_witness :
    supervisorSignalHandler "SIGINT" =
      some [SupAction.killChild "SIGINT",
        SupAction.armTimer 1000 (SupAction.killChild "SIGKILL")] :=
  (signal_relay_escalation "SIGINT" (Or.inl rfl)).1

end McpSafeRun
